import Mathlib

/-!
Verification of the argument-masking core of kedro-telemetry.

The definitions below are a shallow embedding of
`kedro_telemetry/masking.py` and the `_mask_arguments` helper of
`kedro_telemetry/plugin.py`.  Python strings become Lean `String`,
Python lists become Lean `List`, the Python `dict` used as a structure
map becomes an association list (`SMap`), and the Python `set` used as
a vocabulary becomes a `List String` whose only observed operation is
membership.
-/

/-- Splits a list of characters at every occurrence of the character
`=`, keeping empty pieces, exactly like Python `s.split("=")` on the
character level: `"".split("=") == [""]`, `"a==b".split("=") == ["a","","b"]`. -/
def splitEq : List Char → List (List Char)
  | [] => [[]]
  | c :: cs =>
    if c = '=' then [] :: splitEq cs
    else
      match splitEq cs with
      | [] => [[c]]
      | p :: ps => (c :: p) :: ps

/-- Python `arg.split("=")` on a Lean `String`. -/
def pySplit (s : String) : List String :=
  (splitEq s.data).map String.mk

/-- Python `arg.startswith("-")`: true exactly when the first character
exists and is a dash. -/
def startsDash (s : String) : Bool :=
  match s.data with
  | [] => false
  | c :: _ => decide (c = '-')

/-- Python `"=" in arg`. -/
def containsEq (s : String) : Bool :=
  decide ('=' ∈ s.data)

/-- Python `arg.split("=", 1)[0]`: the prefix of the string before the
first `=` (the whole string when there is no `=`). -/
def beforeFirstEq (s : String) : String :=
  String.mk (s.data.takeWhile (fun c => decide (c ≠ '=')))

mutual
/-- A value of the Python structure-map dictionaries produced by
`_recurse_cli`: `None`, a string (help mode), or a nested dictionary. -/
inductive SVal where
  | null : SVal
  | str : String → SVal
  | dict : SMap → SVal

/-- A Python `Dict[str, Any]` structure map as an ordered association
list of key/value pairs (Python dictionaries preserve insertion order). -/
inductive SMap where
  | nil : SMap
  | cons : String → SVal → SMap → SMap
end

/-- Concatenation of two association lists, used to model successive
insertions into the same mutated Python dictionary. -/
def SMap.append : SMap → SMap → SMap
  | SMap.nil, m => m
  | SMap.cons k v rest, m => SMap.cons k v (SMap.append rest m)

/-- Python `dict.fromkeys(keys, None)`. -/
def dictFromKeysNone : List String → SMap
  | [] => SMap.nil
  | k :: ks => SMap.cons k SVal.null (dictFromKeysNone ks)

mutual
/-- `_recursive_items` of masking.py: iterates over the dictionary
items; for a dict value it yields `(key, None)` and descends, otherwise
it yields `(key, value)`.  `None` values become `none`, string values
become `some`. -/
def _recursive_items : SMap → List (String × Option String)
  | SMap.nil => []
  | SMap.cons k v rest => _recursive_items_entry k v ++ _recursive_items rest

/-- The body of the `for key, value in dictionary.items()` loop of
`_recursive_items` for a single key/value pair. -/
def _recursive_items_entry (k : String) : SVal → List (String × Option String)
  | SVal.null => [(k, none)]
  | SVal.str v => [(k, some v)]
  | SVal.dict d => (k, none) :: _recursive_items d
end

/-- `_get_vocabulary` of masking.py: the seed tokens `-h` and
`--version`, then every yielded key, and every yielded value that is
truthy in Python (a non-`None`, non-empty string). -/
def _get_vocabulary (cli_struct : SMap) : List String :=
  ["-h", "--version"] ++
    (_recursive_items cli_struct).flatMap (fun kv =>
      kv.1 ::
        (match kv.2 with
         | some v => if v ≠ "" then [v] else []
         | none => []))

/-- The body of the `for arg in command_args` loop of `mask_kedro_cli`
for a single token: the list of elements the iteration appends to the
output.  A flag-like token is split on every `=` and each part is kept
when it is in the vocabulary, replaced by the mask when it is
non-empty, and dropped when empty; a positional token is treated the
same way without splitting. -/
def mask_kedro_cli_token (vocabulary : List String) (mask : String) (arg : String) :
    List String :=
  if startsDash arg then
    (pySplit arg).flatMap (fun arg_part =>
      if arg_part ∈ vocabulary then [arg_part]
      else if arg_part ≠ "" then [mask]
      else [])
  else
    if arg ∈ vocabulary then [arg]
    else if arg ≠ "" then [mask]
    else []

/-- `mask_kedro_cli` of masking.py: builds the vocabulary from the
structure map and masks the argument vector token by token. -/
def mask_kedro_cli (cli_struct : SMap) (command_args : List String) : List String :=
  let mask := "*****"
  let vocabulary := _get_vocabulary cli_struct
  command_args.flatMap (mask_kedro_cli_token vocabulary mask)

mutual
/-- The abstract click command tree consumed by `_recurse_cli`: a
`click.Group`/`click.CommandCollection` with an optional name and
children, or a terminal `click.Command` with a name, the option
strings of each of its parameters, and its rendered help text. -/
inductive CmdTree where
  | group : Option String → CmdForest → CmdTree
  | cmd : String → List (List String) → String → CmdTree

/-- The ordered children of a group node. -/
inductive CmdForest where
  | nil : CmdForest
  | cons : CmdTree → CmdForest → CmdForest
end

mutual
/-- `_recurse_cli` of masking.py, modelled as the entries the call adds
to its mutated `io_dict`: a group contributes its name (defaulting to
`"kedro"`) mapped to the concatenated entries of its children; a
command contributes its name mapped to its rendered help text in help
mode, and to `dict.fromkeys(flattened option strings, None)` otherwise. -/
def _recurse_cli (get_help : Bool) : CmdTree → SMap
  | CmdTree.group name children =>
      SMap.cons (name.getD "kedro")
        (SVal.dict (_recurse_cli_children get_help children)) SMap.nil
  | CmdTree.cmd name l_of_l help_text =>
      SMap.cons name
        (if get_help then SVal.str help_text
         else SVal.dict (dictFromKeysNone l_of_l.flatten)) SMap.nil

/-- The `for _sc in cli_element.list_commands(ctx)` loop of
`_recurse_cli`: each child adds its entries to the same sub-dictionary. -/
def _recurse_cli_children (get_help : Bool) : CmdForest → SMap
  | CmdForest.nil => SMap.nil
  | CmdForest.cons t ts =>
      SMap.append (_recurse_cli get_help t) (_recurse_cli_children get_help ts)
end

/-- `get_cli_structure` of masking.py: runs `_recurse_cli` on an empty
output dictionary and returns it. -/
def get_cli_structure (cli_obj : CmdTree) (get_help : Bool) : SMap :=
  _recurse_cli get_help cli_obj

/-- The `for arg in command_args_iterable` loop of `_mask_arguments` of
plugin.py, before the final `filter`.  A flag containing `=` emits the
part before the first `=` and the mask; a flag without `=` emits itself,
consumes the next token from the iterator, and emits the mask exactly
when that token exists and is truthy (non-empty); a positional token is
emitted verbatim. -/
def _mask_arguments_loop : List String → List String
  | [] => []
  | arg :: rest =>
    if startsDash arg then
      if containsEq arg then
        beforeFirstEq arg :: "*****" :: _mask_arguments_loop rest
      else
        match rest with
        | [] => [arg]
        | next_arg :: rest2 =>
          if next_arg ≠ "" then arg :: "*****" :: _mask_arguments_loop rest2
          else arg :: _mask_arguments_loop rest2
    else arg :: _mask_arguments_loop rest

/-- `_mask_arguments` of plugin.py: the iterator loop followed by
`list(filter(None, masked_commands))`, which drops empty strings. -/
def _mask_arguments (command_args : List String) : List String :=
  (_mask_arguments_loop command_args).filter (fun s => decide (s ≠ ""))

/-- Which input positions of `_mask_arguments` are consumed from the
iterator as the assumed value of an immediately preceding flag that
contains no `=`.  Mirrors the control flow of `_mask_arguments_loop`:
the token pulled by `next(command_args_iterable, None)` is marked
`true`, every other token `false`. -/
def consumedMap : List String → List Bool
  | [] => []
  | arg :: rest =>
    if startsDash arg && !containsEq arg then
      match rest with
      | [] => [false]
      | _ :: rest2 => false :: true :: consumedMap rest2
    else false :: consumedMap rest

theorem splitEq_ne_nil (l : List Char) : splitEq l ≠ [] := by
  induction l with
  | nil => simp [splitEq]
  | cons c cs ih =>
    simp only [splitEq]
    split
    · simp
    · split
      · simp
      · simp

theorem splitEq_no_eq (l : List Char) (h : '=' ∉ l) : splitEq l = [l] := by
  induction l with
  | nil => rfl
  | cons c cs ih =>
    have hc : ¬ c = '=' := fun hc => h (hc ▸ List.mem_cons_self c cs)
    have hcs : '=' ∉ cs := fun hm => h (List.mem_cons_of_mem _ hm)
    simp only [splitEq, if_neg hc, ih hcs]

theorem pySplit_no_eq (s : String) (h : containsEq s = false) : pySplit s = [s] := by
  have hmem : '=' ∉ s.data := by
    simpa [containsEq] using h
  simp [pySplit, splitEq_no_eq s.data hmem]

theorem splitEq_length (l : List Char) : (splitEq l).length = l.count '=' + 1 := by
  induction l with
  | nil => rfl
  | cons c cs ih =>
    by_cases hc : c = '='
    · subst hc
      simp [splitEq, List.count_cons, ih]
    · obtain ⟨p, ps, hps⟩ : ∃ p ps, splitEq cs = p :: ps := by
        cases hsp : splitEq cs with
        | nil => exact absurd hsp (splitEq_ne_nil cs)
        | cons p ps => exact ⟨p, ps, rfl⟩
      have hlen : ps.length + 1 = cs.count '=' + 1 := by
        rw [hps] at ih
        simpa using ih
      simp only [splitEq, if_neg hc, hps]
      simp only [List.length_cons, List.count_cons]
      simp [hc]
      omega

theorem pySplit_length (s : String) : (pySplit s).length = s.data.count '=' + 1 := by
  simp [pySplit, splitEq_length]

theorem startsDash_ne_empty (s : String) (h : startsDash s = true) : s ≠ "" := by
  intro he
  rw [he] at h
  exact absurd h (by decide)

theorem length_flatMap_le (l : List String) (g : String → List String)
    (h : ∀ x, (g x).length ≤ 1) : (l.flatMap g).length ≤ l.length := by
  induction l with
  | nil => simp
  | cons a l ih =>
    simp only [List.flatMap_cons, List.length_append, List.length_cons]
    have := h a
    omega

theorem mask_token_sound (voc : List String) (mask arg x : String)
    (hx : x ∈ mask_kedro_cli_token voc mask arg) : x ∈ voc ∨ x = mask := by
  unfold mask_kedro_cli_token at hx
  split at hx
  · simp only [List.mem_flatMap] at hx
    obtain ⟨p, -, hp⟩ := hx
    split at hp
    · next hin =>
      rw [List.mem_singleton] at hp
      exact Or.inl (hp ▸ hin)
    · split at hp
      · rw [List.mem_singleton] at hp
        exact Or.inr hp
      · exact absurd hp (List.not_mem_nil x)
  · split at hx
    · next hin =>
      rw [List.mem_singleton] at hx
      exact Or.inl (hx ▸ hin)
    · split at hx
      · rw [List.mem_singleton] at hx
        exact Or.inr hx
      · exact absurd hx (List.not_mem_nil x)

theorem mask_token_length (voc : List String) (mask arg : String) :
    (mask_kedro_cli_token voc mask arg).length ≤ arg.data.count '=' + 1 := by
  unfold mask_kedro_cli_token
  split
  · have hb : ∀ p, ((if p ∈ voc then [p] else if p ≠ "" then [mask]
        else ([] : List String))).length ≤ 1 := by
      intro p
      split
      · simp
      · split <;> simp
    have := length_flatMap_le (pySplit arg) _ hb
    rw [pySplit_length] at this
    exact this
  · split
    · simp
    · split <;> simp

theorem mask_token_fixed (voc : List String) (t : String)
    (h : t = "*****" ∨ (t ∈ voc ∧ (startsDash t = true → containsEq t = false))) :
    mask_kedro_cli_token voc "*****" t = [t] := by
  rcases h with rfl | ⟨hv, himp⟩
  · unfold mask_kedro_cli_token
    rw [if_neg (by decide : ¬ (startsDash "*****" = true))]
    by_cases hm : ("*****" : String) ∈ voc
    · rw [if_pos hm]
    · rw [if_neg hm, if_pos (by decide : ("*****" : String) ≠ "")]
  · unfold mask_kedro_cli_token
    by_cases hd : startsDash t = true
    · rw [if_pos hd, pySplit_no_eq t (himp hd)]
      simp [hv]
    · rw [if_neg hd, if_pos hv]

/-- C1: every element of the list returned by `mask_kedro_cli` applied to a
structure map and an argument vector is either a member of the vocabulary
built from the structure map or the redaction sentinel `*****`; no other
string appears in the output. -/
theorem mask_kedro_cli_sound (s : SMap) (args : List String) (x : String)
    (hx : x ∈ mask_kedro_cli s args) :
    x ∈ _get_vocabulary s ∨ x = "*****" := by
  simp only [mask_kedro_cli, List.mem_flatMap] at hx
  obtain ⟨a, -, hmem⟩ := hx
  exact mask_token_sound (_get_vocabulary s) "*****" a x hmem

theorem mask_kedro_cli_sound_witness :
    "*****" ∈ _get_vocabulary SMap.nil ∨ "*****" = "*****" :=
  mask_kedro_cli_sound SMap.nil ["foo"] "*****" (by decide)

/-- C2: `mask_kedro_cli` applied to the structure map
`{"kedro": {"command_a": {"--param1": null, "--param2": null}, "command_b": null}}`
and the argument vector `["command_a", "--param1=foo"]` returns exactly
`["command_a", "--param1", "*****"]`. -/
theorem mask_kedro_cli_example_param_eq :
    mask_kedro_cli
      (SMap.cons "kedro"
        (SVal.dict
          (SMap.cons "command_a"
            (SVal.dict (SMap.cons "--param1" SVal.null
              (SMap.cons "--param2" SVal.null SMap.nil)))
            (SMap.cons "command_b" SVal.null SMap.nil)))
        SMap.nil)
      ["command_a", "--param1=foo"] = ["command_a", "--param1", "*****"] := by decide

/-- C3 counterexample: `mask_kedro_cli` splits a flag-like token on every
`=`, not only the first one: the token `--a=b=c` is split into the three
parts `--a`, `b`, `c` (not into `--a` and `b=c`), and it contributes three
elements to the output, more than the two the claim allows. -/
theorem mask_kedro_cli_splits_every_eq_cex :
    pySplit "--a=b=c" = ["--a", "b", "c"] ∧
    mask_kedro_cli SMap.nil ["--a=b=c"] = ["*****", "*****", "*****"] ∧
    ¬ (mask_kedro_cli SMap.nil ["--a=b=c"]).length ≤ 2 := by decide

/-- C3 amended: a flag-like token is split on every `=` character, so a
token containing k occurrences of `=` is split into exactly k + 1 parts,
each tested against the vocabulary, and the token contributes at most
k + 1 elements to the output. -/
theorem mask_kedro_cli_flag_parts_bound (s : SMap) (arg : String)
    (h : startsDash arg = true) :
    (pySplit arg).length = arg.data.count '=' + 1 ∧
    (mask_kedro_cli s [arg]).length ≤ arg.data.count '=' + 1 := by
  refine ⟨pySplit_length arg, ?_⟩
  have hone : mask_kedro_cli s [arg]
      = mask_kedro_cli_token (_get_vocabulary s) "*****" arg := by
    simp [mask_kedro_cli]
  rw [hone]
  exact mask_token_length (_get_vocabulary s) "*****" arg

theorem mask_kedro_cli_flag_parts_bound_witness :
    (pySplit "--a=b=c").length = "--a=b=c".data.count '=' + 1 ∧
    (mask_kedro_cli SMap.nil ["--a=b=c"]).length ≤ "--a=b=c".data.count '=' + 1 :=
  mask_kedro_cli_flag_parts_bound SMap.nil "--a=b=c" (by decide)

/-- C6 counterexample: the masked vector can be strictly longer than the
input vector for both maskers: the single token `--a=b` produces two
elements under `mask_kedro_cli`, and the single token `-p=x` produces two
elements under `_mask_arguments`. -/
theorem masked_vector_can_be_longer_cex :
    ¬ ((mask_kedro_cli SMap.nil ["--a=b"]).length ≤ (["--a=b"] : List String).length) ∧
    ¬ ((_mask_arguments ["-p=x"]).length ≤ (["-p=x"] : List String).length) := by decide

/-- C6 amended: the masked vector need not be shorter than the input: each
input token of the vocabulary-based masker contributes at most one element
per `=`-separated part, so the output length is bounded by the total number
of parts, and each input token of the heuristic masker contributes at most
two elements, so its output length is bounded by twice the input length. -/
theorem masked_vector_length_bound :
    (∀ (s : SMap) (args : List String),
      (mask_kedro_cli s args).length ≤
        (args.map (fun a => a.data.count '=' + 1)).sum) ∧
    (∀ args : List String, (_mask_arguments args).length ≤ 2 * args.length) := by
  constructor
  · intro s args
    induction args with
    | nil => simp [mask_kedro_cli]
    | cons a args ih =>
      have hstep : mask_kedro_cli s (a :: args)
          = mask_kedro_cli_token (_get_vocabulary s) "*****" a ++ mask_kedro_cli s args := by
        simp [mask_kedro_cli]
      rw [hstep]
      simp only [List.length_append, List.map_cons, List.sum_cons]
      have := mask_token_length (_get_vocabulary s) "*****" a
      omega
  · intro args
    have hloop : ∀ l : List String, (_mask_arguments_loop l).length ≤ 2 * l.length := by
      intro l
      induction l using _mask_arguments_loop.induct with
      | case1 => simp [_mask_arguments_loop]
      | case2 arg rest hd he ih =>
        rw [_mask_arguments_loop.eq_def]
        simp only [hd, he, if_true, List.length_cons]
        omega
      | case3 arg hd he =>
        rw [_mask_arguments_loop.eq_def]
        simp [hd, he]
      | case4 arg hd he b rest2 hb ih =>
        rw [_mask_arguments_loop.eq_def]
        simp only [hd, if_true, List.length_cons]
        rw [if_neg he, if_pos hb]
        simp only [List.length_cons]
        omega
      | case5 arg hd he b rest2 hb ih =>
        rw [_mask_arguments_loop.eq_def]
        simp only [hd, if_true, List.length_cons]
        rw [if_neg he, if_neg hb]
        simp only [List.length_cons]
        omega
      | case6 arg rest hd ih =>
        rw [_mask_arguments_loop.eq_def]
        dsimp only
        rw [if_neg hd]
        simp only [List.length_cons]
        omega
    calc (_mask_arguments args).length
        ≤ (_mask_arguments_loop args).length := List.length_filter_le _ _
      _ ≤ 2 * args.length := hloop args

/-- C7 counterexample: idempotence fails when the vocabulary contains a
flag-like token with an embedded `=`: for the structure map
`{"-a=b": null}` the token `-a=b` is in the vocabulary, yet masking the
already-safe vector `["-a=b"]` splits it and masks both parts. -/
theorem mask_idempotent_cex :
    "-a=b" ∈ _get_vocabulary (SMap.cons "-a=b" SVal.null SMap.nil) ∧
    mask_kedro_cli (SMap.cons "-a=b" SVal.null SMap.nil) ["-a=b"]
      = ["*****", "*****"] ∧
    mask_kedro_cli (SMap.cons "-a=b" SVal.null SMap.nil) ["-a=b"]
      ≠ ["-a=b"] := by decide

/-- C7 amended: masking an already-fully-masked vector with the same
vocabulary yields the same vector, provided every token is either the
sentinel or a vocabulary member that, when flag-like, contains no `=`
(a flag-like vocabulary member with an embedded `=` is split and masked,
so it is excluded). -/
theorem mask_idempotent_no_eq_vocab (s : SMap) (args : List String)
    (h : ∀ t ∈ args, t = "*****" ∨
      (t ∈ _get_vocabulary s ∧ (startsDash t = true → containsEq t = false))) :
    mask_kedro_cli s args = args := by
  induction args with
  | nil => rfl
  | cons a args ih =>
    have ha := h a (List.mem_cons_self a args)
    have hrest := ih (fun t htm => h t (List.mem_cons_of_mem a htm))
    have hstep : mask_kedro_cli s (a :: args)
        = mask_kedro_cli_token (_get_vocabulary s) "*****" a ++ mask_kedro_cli s args := by
      simp [mask_kedro_cli]
    rw [hstep, hrest, mask_token_fixed (_get_vocabulary s) a ha]
    rfl

theorem mask_idempotent_no_eq_vocab_witness :
    mask_kedro_cli (SMap.cons "command_a" SVal.null SMap.nil)
      ["command_a", "*****"] = ["command_a", "*****"] :=
  mask_idempotent_no_eq_vocab (SMap.cons "command_a" SVal.null SMap.nil)
    ["command_a", "*****"] (by decide)

/-- C4 counterexample: the heuristic masker does not replace an empty
following token by the sentinel: after the valueless flag `-p`, the empty
string is consumed from the iterator but, being falsy, no sentinel is
emitted in its place, so the output is `["-p"]` and not `["-p", "*****"]`. -/
theorem mask_arguments_empty_next_cex :
    _mask_arguments ["-p", ""] = ["-p"] ∧
    _mask_arguments ["-p", ""] ≠ ["-p", "*****"] := by decide

/-- C4 amended: in the heuristic masker, a flag-like token without `=`
that is followed by another token is emitted verbatim and the following
token is consumed; the sentinel is emitted in its place exactly when the
following token is non-empty — in particular a following flag such as
`--help` is masked, but an empty following token is silently dropped. -/
theorem mask_arguments_flag_consumes_next (a b : String) (rest : List String)
    (ha : startsDash a = true) (hne : containsEq a = false) :
    _mask_arguments (a :: b :: rest) =
      if b ≠ "" then a :: "*****" :: _mask_arguments rest
      else a :: _mask_arguments rest := by
  have hae : a ≠ "" := startsDash_ne_empty a ha
  have hloop : _mask_arguments_loop (a :: b :: rest) =
      if b ≠ "" then a :: "*****" :: _mask_arguments_loop rest
      else a :: _mask_arguments_loop rest := by
    rw [_mask_arguments_loop.eq_def]
    dsimp only
    rw [if_pos ha, if_neg (by simp [hne] : ¬ containsEq a = true)]
  unfold _mask_arguments
  rw [hloop]
  by_cases hb : b ≠ ""
  · rw [if_pos hb, if_pos hb]
    simp [List.filter_cons, hae]
  · rw [if_neg hb, if_neg hb]
    simp [List.filter_cons, hae]

theorem mask_arguments_flag_consumes_next_witness :
    _mask_arguments ["-p", "--help"] =
      if "--help" ≠ "" then "-p" :: "*****" :: _mask_arguments []
      else "-p" :: _mask_arguments [] :=
  mask_arguments_flag_consumes_next "-p" "--help" [] (by decide) (by decide)

theorem mem_loop_of_zip (args : List String) (t : String)
    (ht : startsDash t = false) :
    (t, false) ∈ List.zip args (consumedMap args) → t ∈ _mask_arguments_loop args := by
  induction args using _mask_arguments_loop.induct with
  | case1 =>
    intro h
    simp [consumedMap] at h
  | case2 arg rest hd he ih =>
    intro h
    rw [consumedMap.eq_def] at h
    dsimp only at h
    rw [if_neg (by simp [hd, he] : ¬ (startsDash arg && !containsEq arg) = true)] at h
    rw [List.zip_cons_cons, List.mem_cons] at h
    rw [_mask_arguments_loop.eq_def]
    dsimp only
    rw [if_pos hd, if_pos he]
    rcases h with heq | h
    · injection heq with h1 h2
      subst h1
      rw [ht] at hd
      exact absurd hd (by simp)
    · exact List.mem_cons_of_mem _ (List.mem_cons_of_mem _ (ih h))
  | case3 arg hd he =>
    intro h
    rw [consumedMap.eq_def] at h
    dsimp only at h
    rw [if_pos (by simp [hd, he] : (startsDash arg && !containsEq arg) = true)] at h
    rw [List.zip_cons_cons, List.mem_cons] at h
    rcases h with heq | h
    · injection heq with h1 h2
      subst h1
      rw [ht] at hd
      exact absurd hd (by simp)
    · simp at h
  | case4 arg hd he b rest2 hb ih =>
    intro h
    rw [consumedMap.eq_def] at h
    dsimp only at h
    rw [if_pos (by simp [hd, he] : (startsDash arg && !containsEq arg) = true)] at h
    rw [List.zip_cons_cons, List.zip_cons_cons, List.mem_cons, List.mem_cons] at h
    rw [_mask_arguments_loop.eq_def]
    dsimp only
    rw [if_pos hd, if_neg he, if_pos hb]
    rcases h with heq | heq | h
    · injection heq with h1 h2
      subst h1
      rw [ht] at hd
      exact absurd hd (by simp)
    · injection heq with h1 h2
      exact absurd h2.symm (by simp)
    · exact List.mem_cons_of_mem _ (List.mem_cons_of_mem _ (ih h))
  | case5 arg hd he b rest2 hb ih =>
    intro h
    rw [consumedMap.eq_def] at h
    dsimp only at h
    rw [if_pos (by simp [hd, he] : (startsDash arg && !containsEq arg) = true)] at h
    rw [List.zip_cons_cons, List.zip_cons_cons, List.mem_cons, List.mem_cons] at h
    rw [_mask_arguments_loop.eq_def]
    dsimp only
    rw [if_pos hd, if_neg he, if_neg hb]
    rcases h with heq | heq | h
    · injection heq with h1 h2
      subst h1
      rw [ht] at hd
      exact absurd hd (by simp)
    · injection heq with h1 h2
      exact absurd h2.symm (by simp)
    · exact List.mem_cons_of_mem _ (ih h)
  | case6 arg rest hd ih =>
    intro h
    rw [consumedMap.eq_def] at h
    dsimp only at h
    rw [if_neg (by simp [hd] : ¬ (startsDash arg && !containsEq arg) = true)] at h
    rw [List.zip_cons_cons, List.mem_cons] at h
    rw [_mask_arguments_loop.eq_def]
    dsimp only
    rw [if_neg hd]
    rcases h with heq | h
    · injection heq with h1 h2
      subst h1
      exact List.mem_cons_self _ _
    · exact List.mem_cons_of_mem _ (ih h)

/-- C5: in the heuristic masker, every non-empty token that does not start
with `-` and is not consumed from the iterator as the value of an
immediately preceding valueless flag (as recorded by `consumedMap`)
appears verbatim in the output; positional tokens are never replaced by
the sentinel in this mode. -/
theorem mask_arguments_positional_kept (args : List String) (t : String) (b : Bool)
    (hmem : (t, b) ∈ List.zip args (consumedMap args)) (hb : b = false)
    (ht : startsDash t = false) (hne : t ≠ "") :
    t ∈ _mask_arguments args := by
  subst hb
  have hloop := mem_loop_of_zip args t ht hmem
  exact List.mem_filter.mpr ⟨hloop, decide_eq_true hne⟩

theorem mask_arguments_positional_kept_witness : "run" ∈ _mask_arguments ["run"] :=
  mask_arguments_positional_kept ["run"] "run" false (by decide) rfl (by decide)
    (by decide)

/-- C8 counterexample: for the empty command tree (a group with no
children and no option strings), the vocabulary built from the flattened
structure map holds more than the two seed tokens: the default name
`kedro` of the root group is flattened into the structure map as a key
and therefore inserted into the vocabulary. -/
theorem empty_tree_vocabulary_cex :
    "kedro" ∈ _get_vocabulary
      (get_cli_structure (CmdTree.group none CmdForest.nil) false) ∧
    ¬ ("kedro" = "-h" ∨ "kedro" = "--version") := by decide

/-- C8 amended: for every empty command tree, the vocabulary built from
the flattened structure map consists of exactly the three tokens `-h`,
`--version`, and the name of the root group (defaulting to `kedro` when
the group reports no name). -/
theorem empty_tree_vocabulary (nm : Option String) (x : String) :
    x ∈ _get_vocabulary (get_cli_structure (CmdTree.group nm CmdForest.nil) false) ↔
      x = "-h" ∨ x = "--version" ∨ x = nm.getD "kedro" := by
  have hstruct : get_cli_structure (CmdTree.group nm CmdForest.nil) false
      = SMap.cons (nm.getD "kedro") (SVal.dict SMap.nil) SMap.nil := rfl
  rw [hstruct]
  simp [_get_vocabulary, _recursive_items, _recursive_items_entry]

/-- C9 counterexample: the vocabulary builder tests the yielded value for
Python truthiness, not only for being non-null: the leaf `{"k": ""}`
yields the pair `("k", "")`, yet the empty string is not inserted into
the vocabulary. -/
theorem empty_string_value_not_inserted_cex :
    ("k", some "") ∈ _recursive_items (SMap.cons "k" (SVal.str "") SMap.nil) ∧
    "" ∉ _get_vocabulary (SMap.cons "k" (SVal.str "") SMap.nil) := by decide

/-- C9 amended: the vocabulary consists of the two seed tokens, every
yielded key (inserted unconditionally), and every yielded leaf value that
is non-null and non-empty — a leaf value that is the empty string is not
inserted. -/
theorem vocabulary_membership_iff (s : SMap) (x : String) :
    x ∈ _get_vocabulary s ↔
      x = "-h" ∨ x = "--version" ∨
      (∃ v, (x, v) ∈ _recursive_items s) ∨
      ((∃ k, (k, some x) ∈ _recursive_items s) ∧ x ≠ "") := by
  unfold _get_vocabulary
  simp only [List.cons_append, List.nil_append, List.mem_cons, List.mem_flatMap]
  constructor
  · rintro (rfl | rfl | ⟨⟨k, v⟩, hkv, hx⟩)
    · exact Or.inl rfl
    · exact Or.inr (Or.inl rfl)
    · dsimp only at hx
      rcases hx with rfl | hx2
      · exact Or.inr (Or.inr (Or.inl ⟨v, hkv⟩))
      · cases v with
        | none =>
          dsimp only at hx2
          exact absurd hx2 (List.not_mem_nil x)
        | some u =>
          dsimp only at hx2
          by_cases hu : u ≠ ""
          · rw [if_pos hu, List.mem_singleton] at hx2
            subst hx2
            exact Or.inr (Or.inr (Or.inr ⟨⟨k, hkv⟩, hu⟩))
          · rw [if_neg hu] at hx2
            exact absurd hx2 (List.not_mem_nil x)
  · rintro (rfl | rfl | ⟨v, hv⟩ | ⟨⟨k, hk⟩, hx⟩)
    · exact Or.inl rfl
    · exact Or.inr (Or.inl rfl)
    · exact Or.inr (Or.inr ⟨(x, v), hv, Or.inl rfl⟩)
    · refine Or.inr (Or.inr ⟨(k, some x), hk, Or.inr ?_⟩)
      dsimp only
      rw [if_pos hx]
      exact List.mem_singleton.mpr rfl

theorem consumedMap_length (args : List String) :
    (consumedMap args).length = args.length := by
  induction args using consumedMap.induct with
  | case1 => rfl
  | case2 arg hc => simp [consumedMap, hc]
  | case3 arg hc b rest2 ih =>
    rw [consumedMap.eq_def]
    dsimp only
    rw [if_pos hc]
    simp [ih]
  | case4 arg rest hc ih =>
    rw [consumedMap.eq_def]
    dsimp only
    rw [if_neg hc]
    simp [ih]
